import Mathlib

/-!
Verification of the maildirs repository (a Rust implementation of the
Maildir mailbox format) against its natural-language specification.

The repository contains two variants of the engine:
* `src/maildir.rs` — the current core (`Maildir`, `Maildirs`, `MaildirEntry`);
* `src/lib.rs` / `src/entry.rs` — a superseded historical variant
  (`Maildir::store`, `MailEntry`).

Rust strings (`&str`, `String`) are modelled as `List Char` for file names
and flag runs, and as `String` for path components; file-system paths are
modelled as lists of path components (`List String`).  The informational
separator is a one-character string in every configuration (`":"` on Unix,
`";"` on Windows), so it is modelled as a single `Char`.
-/

namespace MaildirSpec

/-- `Flag` from `src/flag.rs`: the closed enumeration of maildir flags. -/
inductive Flag where
  | Passed
  | Replied
  | Seen
  | Trashed
  | Draft
  | Flagged
deriving DecidableEq, Repr, Fintype

/-- `impl AsRef<str> for Flag` (src/flag.rs): the one-letter code of a flag.
The Rust code returns a one-character `&str`; we model it as a `Char`. -/
def flagChar : Flag → Char
  | .Passed => 'P'
  | .Replied => 'R'
  | .Seen => 'S'
  | .Trashed => 'T'
  | .Draft => 'D'
  | .Flagged => 'F'

/-- `impl TryFrom<char> for Flag` (src/flag.rs): decode one character,
`none` for an unrecognized character (the Rust code returns
`Err(Error::InvalidFlagError)`). -/
def charToFlag : Char → Option Flag
  | 'P' => some .Passed
  | 'R' => some .Replied
  | 'S' => some .Seen
  | 'T' => some .Trashed
  | 'D' => some .Draft
  | 'F' => some .Flagged
  | _ => none

/-- The six flags listed in the lexicographic order of their letter codes
(`D < F < P < R < S < T`). -/
def allFlagsSorted : List Flag :=
  [.Draft, .Flagged, .Passed, .Replied, .Seen, .Trashed]

/-- The sorted flag-letter run produced by `format_file_name`
(src/maildir.rs:711-718).  The Rust code collects the `HashSet<Flag>` into a
`Vec<&str>`, sorts it and joins it; since the letters of distinct flags are
distinct, sorting the letters of a set yields exactly the letter-sorted list
of all six flags filtered by membership in the set. -/
def flagLetterRun (flags : Finset Flag) : List Char :=
  (allFlagsSorted.filter (· ∈ flags)).map flagChar

/-- `format_file_name` (src/maildir.rs:711-718):
`format!("{id}{sep}2,{flags}")` with the flag letters sorted. -/
def formatFileName (sep : Char) (id : List Char) (flags : Finset Flag) :
    List Char :=
  id ++ sep :: '2' :: ',' :: flagLetterRun flags

/-- Rust `str::rsplit_once` for a one-character pattern: split at the last
occurrence of `sep`, returning the parts before and after it; `none` when
`sep` does not occur. -/
def rsplitOnce (sep : Char) : List Char → Option (List Char × List Char)
  | [] => none
  | c :: cs =>
    match rsplitOnce sep cs with
    | some (l, r) => some (c :: l, r)
    | none => if c = sep then some ([], cs) else none

/-- `MaildirEntry::id` (src/maildir.rs:557-564): everything before the last
occurrence of the informational separator, or the whole file name when the
separator is absent. -/
def entryId (sep : Char) (fileName : List Char) : List Char :=
  match rsplitOnce sep fileName with
  | some (id, _) => id
  | none => fileName

/-- `MaildirEntry::flags` (src/maildir.rs:600-611): the characters after the
last occurrence of the informational separator, decoded one by one and
collected into a set, invalid characters (including the `"2,"` marker)
silently dropped; the empty set when the separator is absent. -/
def entryFlags (sep : Char) (fileName : List Char) : Finset Flag :=
  match rsplitOnce sep fileName with
  | some (_, rest) => (rest.filterMap charToFlag).toFinset
  | none => ∅

theorem charToFlag_flagChar (f : Flag) : charToFlag (flagChar f) = some f := by
  cases f <;> rfl

theorem rsplitOnce_eq_none {sep : Char} {s : List Char} (h : sep ∉ s) :
    rsplitOnce sep s = none := by
  induction s with
  | nil => rfl
  | cons c cs ih =>
    have hc : c ≠ sep := fun hcs => h (hcs ▸ List.mem_cons_self c cs)
    have hcs : sep ∉ cs := fun hm => h (List.mem_cons_of_mem c hm)
    simp [rsplitOnce, ih hcs, hc]

theorem rsplitOnce_append {sep : Char} (l : List Char) {r : List Char}
    (h : sep ∉ r) : rsplitOnce sep (l ++ sep :: r) = some (l, r) := by
  induction l with
  | nil => simp [rsplitOnce, rsplitOnce_eq_none h]
  | cons c cs ih => simp [rsplitOnce, ih]

theorem mem_flagLetterRun {c : Char} {S : Finset Flag}
    (h : c ∈ flagLetterRun S) : ∃ f, c = flagChar f := by
  rcases List.mem_map.mp h with ⟨f, _, rfl⟩
  exact ⟨f, rfl⟩

theorem filterMap_flagLetterRun (S : Finset Flag) :
    (flagLetterRun S).filterMap charToFlag = allFlagsSorted.filter (· ∈ S) := by
  unfold flagLetterRun
  rw [List.filterMap_map]
  have : (charToFlag ∘ flagChar) = some := by
    funext f
    exact charToFlag_flagChar f
  rw [this, List.filterMap_some]

theorem toFinset_filter_allFlagsSorted (S : Finset Flag) :
    (allFlagsSorted.filter (· ∈ S)).toFinset = S := by
  ext f
  have hall : f ∈ allFlagsSorted := by cases f <;> decide
  simp [List.mem_filter, hall]

/-- **C1.**  Round-trip of the name codec: for every flag set `S` and every
identifier `I` that does not contain the informational separator (the
separator itself being none of the reserved characters `2`, `,` and the six
flag letters — true of both real separators `:` and `;`), decoding the file
name produced by `format_file_name` yields back exactly `(I, S)`:
`MaildirEntry::id` returns `I` and `MaildirEntry::flags` returns `S`, and
the encoded flag-letter run is in strictly increasing (lexicographically
sorted) order regardless of the order in which the flags were supplied
(the input is a set, so no supply order can influence the output). -/
theorem c1_round_trip (sep : Char) (I : List Char) (S : Finset Flag)
    (hI : sep ∉ I)
    (hsep : sep ∉ ('2' :: ',' :: allFlagsSorted.map flagChar)) :
    entryId sep (formatFileName sep I S) = I ∧
    entryFlags sep (formatFileName sep I S) = S ∧
    (flagLetterRun S).Sorted (· < ·) := by
  have h2 : sep ≠ '2' := fun h => hsep (by simp [h])
  have hc : sep ≠ ',' := fun h => hsep (by simp [h])
  have hrun : sep ∉ flagLetterRun S := by
    intro hmem
    rcases mem_flagLetterRun hmem with ⟨f, rfl⟩
    refine hsep (List.mem_cons_of_mem _ (List.mem_cons_of_mem _ ?_))
    exact List.mem_map_of_mem flagChar (by cases f <;> decide)
  have hrest : sep ∉ '2' :: ',' :: flagLetterRun S := by
    intro hmem
    rcases List.mem_cons.mp hmem with h | hmem
    · exact h2 h
    rcases List.mem_cons.mp hmem with h | hmem
    · exact hc h
    · exact hrun hmem
  have hsplit : rsplitOnce sep (formatFileName sep I S) =
      some (I, '2' :: ',' :: flagLetterRun S) := by
    unfold formatFileName
    exact rsplitOnce_append I hrest
  refine ⟨?_, ?_, ?_⟩
  · unfold entryId
    rw [hsplit]
  · unfold entryFlags
    rw [hsplit]
    show (('2' :: ',' :: flagLetterRun S).filterMap charToFlag).toFinset = S
    rw [show ('2' :: ',' :: flagLetterRun S).filterMap charToFlag =
        (flagLetterRun S).filterMap charToFlag from by
      simp [List.filterMap_cons, charToFlag]]
    rw [filterMap_flagLetterRun]
    exact toFinset_filter_allFlagsSorted S
  · have hsub : List.Sublist (flagLetterRun S) (allFlagsSorted.map flagChar) :=
      List.Sublist.map flagChar (List.filter_sublist allFlagsSorted)
    have hsorted : (allFlagsSorted.map flagChar).Sorted (· < ·) := by decide
    exact List.Pairwise.sublist hsub hsorted

/-- Witness for C1 at the real Unix separator `:` with identifier `id1` and
flag set `{Passed, Seen}`. -/
theorem c1_round_trip_witness :
    entryId ':' (formatFileName ':' ['i', 'd', '1'] {Flag.Passed, Flag.Seen}) =
      ['i', 'd', '1'] ∧
    entryFlags ':' (formatFileName ':' ['i', 'd', '1'] {Flag.Passed, Flag.Seen}) =
      {Flag.Passed, Flag.Seen} ∧
    (flagLetterRun {Flag.Passed, Flag.Seen}).Sorted (· < ·) :=
  c1_round_trip ':' ['i', 'd', '1'] {Flag.Passed, Flag.Seen}
    (by decide) (by decide)

/-- **C3, counterexample.**  The claim says that a file name in which the
pattern `separator + "2,"` does not occur decodes with the whole name as the
identifier and an empty flag set.  The code instead splits at the last bare
separator: the name `abc:PS` contains `:` but not `:2,`, yet
`MaildirEntry::id` returns `abc` (not the whole name) and
`MaildirEntry::flags` returns `{Passed, Seen}` (not the empty set). -/
theorem c3_counterexample :
    ¬ [':', '2', ','] <:+: ['a', 'b', 'c', ':', 'P', 'S'] ∧
    entryId ':' ['a', 'b', 'c', ':', 'P', 'S'] = ['a', 'b', 'c'] ∧
    entryFlags ':' ['a', 'b', 'c', ':', 'P', 'S'] =
      ({Flag.Passed, Flag.Seen} : Finset Flag) := by
  refine ⟨by decide, by decide, by decide⟩

/-- **C3, amended.**  Decoding splits on the last occurrence of the *bare*
separator character, not of the pattern `separator + "2,"`: whenever the
separator character itself does not occur in the file name, the whole name
is the identifier and the decoded flag set is empty; when it does occur,
everything after its last occurrence is decoded per character (the `2` and
`,` being dropped as unrecognized). -/
theorem c3_amended (sep : Char) (fileName : List Char) (h : sep ∉ fileName) :
    entryId sep fileName = fileName ∧ entryFlags sep fileName = ∅ := by
  constructor
  · unfold entryId
    rw [rsplitOnce_eq_none h]
  · unfold entryFlags
    rw [rsplitOnce_eq_none h]

/-- Witness for the amended C3 at the name `abc.PS` (no `:` in it). -/
theorem c3_amended_witness :
    entryId ':' ['a', 'b', 'c', '.', 'P', 'S'] = ['a', 'b', 'c', '.', 'P', 'S'] ∧
    entryFlags ':' ['a', 'b', 'c', '.', 'P', 'S'] = ∅ :=
  c3_amended ':' ['a', 'b', 'c', '.', 'P', 'S'] (by decide)

/-! ## Mailbox collection: `Maildirs` (src/maildir.rs:355-497)

Paths are modelled as lists of path components.  `splitSlash` together with
the `normalComponents` filter models `std::path::Path::components()` on a
relative path: empty segments and `"."` are not `Normal` components (they
are dropped or yielded as `CurDir`), `".."` is yielded as `ParentDir`; the
Rust code only consumes `Component::Normal` components. -/

def splitSlash : List Char → List (List Char)
  | [] => [[]]
  | c :: cs =>
    match splitSlash cs with
    | [] => [[]]
    | t :: ts => if c = '/' then [] :: t :: ts else (c :: t) :: ts

/-- The `Component::Normal` components of a relative path string. -/
def normalComponents (name : String) : List String :=
  ((splitSlash name.toList).map fun c => String.mk c).filter
    fun c => decide (c ≠ "" ∧ c ≠ "." ∧ c ≠ "..")

/-- Rust `str::trim_start_matches('.')`. -/
def dropLeadingDots (s : String) : String :=
  String.mk (s.toList.dropWhile (· = '.'))

/-- `Maildirs::maildir` (src/maildir.rs:395-414): map a logical mailbox name
to a path.  In Maildir++ mode each `Normal` component of the name is pushed
as `"." + component-with-leading-dots-stripped`; in flat mode the name is
joined onto the root as-is. -/
def maildirsPath (maildirpp : Bool) (root : List String) (name : String) :
    List String :=
  if maildirpp then
    (normalComponents name).foldl
      (fun p c => p ++ ["." ++ dropLeadingDots c]) root
  else
    root ++ normalComponents name

/-- Modelled from the spec's wording of the hierarchical mapping, for
comparison with the implementation-derived `maildirsPath`: every path
segment is mapped to a directory named `"."` followed by the segment with
all leading dots stripped, joined in order under the root. -/
def maildirsPathSpec (root : List String) (segments : List String) :
    List String :=
  root ++ segments.map fun c => "." ++ dropLeadingDots c

theorem foldl_push_eq_append_map (l : List String) (root : List String) :
    l.foldl (fun p c => p ++ ["." ++ dropLeadingDots c]) root =
      root ++ l.map fun c => "." ++ dropLeadingDots c := by
  induction l generalizing root with
  | nil => simp
  | cons c cs ih => simp [List.foldl_cons, ih]

/-- **C6.**  In hierarchical (Maildir++) mode, `Maildirs::maildir` (and
hence `Maildirs::create`) maps each path segment of the logical name to a
directory named `"."` plus the segment with its leading dots stripped,
joined in order under the collection root; `create("Subdir/Subdir")`
resolves to `root/.Subdir/.Subdir`, and the caller-supplied segment
`".Subdir"` maps to the same path as `"Subdir"`. -/
theorem c6_maildirpp_mapping :
    (∀ (root : List String) (name : String),
      maildirsPath true root name = maildirsPathSpec root (normalComponents name)) ∧
    (∀ root : List String,
      maildirsPath true root "Subdir/Subdir" = root ++ [".Subdir", ".Subdir"]) ∧
    (∀ root : List String,
      maildirsPath true root ".Subdir" = maildirsPath true root "Subdir") := by
  have key : ∀ (root : List String) (name : String),
      maildirsPath true root name = maildirsPathSpec root (normalComponents name) := by
    intro root name
    unfold maildirsPath maildirsPathSpec
    simp [foldl_push_eq_append_map]
  refine ⟨key, ?_, ?_⟩
  · intro root
    rw [key]
    unfold maildirsPathSpec
    congr 1
  · intro root
    rw [key, key]
    unfold maildirsPathSpec
    congr 1

/-- One entry produced by `Maildirs::iter` (struct `MaildirsEntry`,
src/maildir.rs:506-511; the `maildir` field is represented by its root
path). -/
structure MaildirsEntry where
  maildirpp : Bool
  path : List String
  name : String
deriving DecidableEq, Repr

/-- Rust `str::starts_with(".")`. -/
def startsWithDot (s : String) : Bool :=
  match s.toList with
  | '.' :: _ => true
  | _ => false

/-- `walkdir::DirEntry::file_name`: the last path component; for a path
without one the full path (rendered `"/"`) is returned. -/
def wFileName (p : List String) : String :=
  match p.getLast? with
  | some s => s
  | none => "/"

/-- The first filter of `Maildirs::iter` (src/maildir.rs:440-446): in
Maildir++ mode keep only entries whose file name starts with a dot; in flat
mode keep everything (file names are valid UTF-8 in this model, so the
`to_str` step never fails). -/
def iterNameFilter (maildirpp : Bool) (p : List String) : Bool :=
  !maildirpp || startsWithDot (wFileName p)

/-- Rendering of a `PathBuf` built by pushing the given components. -/
def joinName : List String → String
  | [] => ""
  | s :: rest => rest.foldl (fun acc c => acc ++ "/" ++ c) s

/-- The `filter_map` body of `Maildirs::iter` (src/maildir.rs:447-482).
`p.drop root.length` models `entry.path().strip_prefix(&self.root)`, which
cannot fail because `WalkDir` only yields paths below its root. -/
def maildirsEntryOf (maildirpp : Bool) (root p : List String) :
    Option MaildirsEntry :=
  if maildirpp then
    if p = root then
      match root.getLast? with
      | some n => some ⟨maildirpp, root, n⟩
      | none => none
    else
      some ⟨maildirpp, p, joinName ((p.drop root.length).map dropLeadingDots)⟩
  else
    some ⟨maildirpp, p, joinName (p.drop root.length)⟩

/-- `Maildir::exists` (src/maildir.rs:138-140) over a directory-set model of
the file system: root, `cur`, `new` and `tmp` must all be directories. -/
def maildirExists (dirs : List (List String)) (root : List String) : Bool :=
  decide (root ∈ dirs) && decide (root ++ ["cur"] ∈ dirs) &&
    decide (root ++ ["new"] ∈ dirs) && decide (root ++ ["tmp"] ∈ dirs)

/-- `Maildirs::iter` (src/maildir.rs:435-490).  `walk` is the sequence of
paths yielded by `WalkDir::new(&self.root)` (the root first, then
everything below it); the three stages are the name filter, the
entry-construction `filter_map` and the existence filter. -/
def maildirsIter (maildirpp : Bool) (root : List String)
    (dirs : List (List String)) (walk : List (List String)) :
    List MaildirsEntry :=
  ((walk.filter (iterNameFilter maildirpp)).filterMap
      (maildirsEntryOf maildirpp root)).filter
    fun e => maildirExists dirs e.path

/-- **C7, counterexample.**  The claim says the root is always considered in
Maildir++ mode regardless of its own directory name.  With a root directory
named `mail` (no leading dot) that satisfies the mailbox existence
invariant, `Maildirs::iter` yields nothing: the dot-prefix name filter runs
before the root special-case and rejects the root. -/
theorem c7_counterexample :
    maildirExists [["mail"], ["mail", "cur"], ["mail", "new"], ["mail", "tmp"]]
      ["mail"] = true ∧
    maildirsIter true ["mail"]
      [["mail"], ["mail", "cur"], ["mail", "new"], ["mail", "tmp"]]
      [["mail"], ["mail", "cur"], ["mail", "new"], ["mail", "tmp"]] = [] := by
  decide

/-- **C7, amended.**  In Maildir++ mode `Maildirs::iter` yields an entry for
the collection root only when the root's own directory name starts with a
dot (the dot-prefix filter applies to the root as well); for such roots
satisfying the existence invariant, the root is yielded with its raw
directory name as the logical name. -/
theorem c7_amended (root : List String) (n : String)
    (dirs walk : List (List String)) (hmem : root ∈ walk)
    (hlast : root.getLast? = some n) (hdot : startsWithDot n = true)
    (hex : maildirExists dirs root = true) :
    (⟨true, root, n⟩ : MaildirsEntry) ∈ maildirsIter true root dirs walk := by
  unfold maildirsIter
  apply List.mem_filter.mpr
  refine ⟨?_, hex⟩
  apply List.mem_filterMap.mpr
  refine ⟨root, ?_, ?_⟩
  · apply List.mem_filter.mpr
    refine ⟨hmem, ?_⟩
    unfold iterNameFilter wFileName
    rw [hlast, hdot]
    simp
  · unfold maildirsEntryOf
    rw [if_pos rfl, if_pos rfl, hlast]

/-- Witness for the amended C7: a dotted root `.mail` that is a maildir is
yielded by `iter`. -/
theorem c7_amended_witness :
    (⟨true, [".mail"], ".mail"⟩ : MaildirsEntry) ∈
      maildirsIter true [".mail"]
        [[".mail"], [".mail", "cur"], [".mail", "new"], [".mail", "tmp"]]
        [[".mail"]] :=
  c7_amended [".mail"] ".mail"
    [[".mail"], [".mail", "cur"], [".mail", "new"], [".mail", "tmp"]]
    [[".mail"]] (by decide) (by decide) (by decide) (by decide)

/-- **C10.**  In flat (non-Maildir++) mode, if the collection root itself
satisfies the mailbox existence invariant then `Maildirs::iter` yields the
root as an entry whose logical name is the empty string (its path relative
to the root). -/
theorem c10_flat_root (root : List String) (dirs walk : List (List String))
    (hmem : root ∈ walk) (hex : maildirExists dirs root = true) :
    (⟨false, root, ""⟩ : MaildirsEntry) ∈ maildirsIter false root dirs walk := by
  unfold maildirsIter
  apply List.mem_filter.mpr
  refine ⟨?_, hex⟩
  apply List.mem_filterMap.mpr
  refine ⟨root, ?_, ?_⟩
  · apply List.mem_filter.mpr
    refine ⟨hmem, by simp [iterNameFilter]⟩
  · unfold maildirsEntryOf
    rw [if_neg (by simp)]
    simp [List.drop_length, joinName]

/-- Witness for C10: a flat collection whose root is itself a maildir. -/
theorem c10_flat_root_witness :
    (⟨false, ["mail"], ""⟩ : MaildirsEntry) ∈
      maildirsIter false ["mail"]
        [["mail"], ["mail", "cur"], ["mail", "new"], ["mail", "tmp"]]
        [["mail"]] :=
  c10_flat_root ["mail"]
    [["mail"], ["mail", "cur"], ["mail", "new"], ["mail", "tmp"]]
    [["mail"]] (by decide) (by decide)

/-! ## File-system operations: removal and copy -/

/-- The error kinds needed by the modelled operations (src/error.rs and
lib.rs `Error`); `io` stands for any propagated `std::io::Error`. -/
inductive MError where
  | notFound
  | alreadyExists
  | io
  | copyEmailSamePath
  | getEmailFileName
  | getMaildirEntryFileName
  | findNewMaildirEntry
deriving DecidableEq, Repr

/-- `std::fs::remove_dir_all` over the directory-set model: per the std
documentation it returns a NotFound error when the path does not exist,
and otherwise removes the directory and everything beneath it. -/
def removeDirAll (dirs : List (List String)) (p : List String) :
    Except MError (List (List String)) :=
  if p ∈ dirs then .ok (dirs.filter fun q => !decide (p <+: q))
  else .error .notFound

/-- `Maildir::remove_all` (src/maildir.rs:172-175): a single call to
`fs::remove_dir_all(&self.root)`; the resulting directory set stands for
the `Ok(())` return. -/
def maildirRemoveAll (dirs : List (List String)) (root : List String) :
    Except MError (List (List String)) :=
  removeDirAll dirs root

/-- **C4, counterexample.**  The claim says `Maildir::remove_all` succeeds
when the root does not exist.  On an empty file system (root `mail`
absent), `fs::remove_dir_all` — and hence `remove_all` — returns a
NotFound error, not `Ok`. -/
theorem c4_counterexample :
    ["mail"] ∉ ([] : List (List String)) ∧
    maildirRemoveAll [] ["mail"] = .error .notFound :=
  ⟨by decide, by rfl⟩

/-- **C4, amended.**  `Maildir::remove_all` forwards to
`fs::remove_dir_all`, which fails with a NotFound error when the root does
not exist; whenever the root does exist it succeeds, removing the root and
every path beneath it unconditionally. -/
theorem c4_amended (dirs : List (List String)) (root : List String)
    (h : root ∈ dirs) :
    maildirRemoveAll dirs root =
      .ok (dirs.filter fun q => !decide (root <+: q)) := by
  unfold maildirRemoveAll removeDirAll
  rw [if_pos h]

/-- Witness for the amended C4: removing an existing singleton mailbox root
succeeds. -/
theorem c4_amended_witness :
    maildirRemoveAll [["mail"]] ["mail"] =
      .ok (([["mail"]] : List (List String)).filter
        fun q => !decide (["mail"] <+: q)) :=
  c4_amended [["mail"]] ["mail"] (by decide)

/-- A file-system model for file contents: an association list from paths
to byte lists. -/
abbrev FileFS := List (List String × List Nat)

def fLookup (fs : FileFS) (p : List String) : Option (List Nat) :=
  (fs.find? fun e => decide (e.1 = p)).map (·.2)

def fWrite (fs : FileFS) (p : List String) (d : List Nat) : FileFS :=
  (p, d) :: fs.filter fun e => !decide (e.1 = p)

/-- `std::path::Path::parent` on the component-list model. -/
def parentOf (p : List String) : Option (List String) :=
  match p with
  | [] => none
  | _ => some p.dropLast

/-- `std::path::Path::file_name` on the component-list model. -/
def fileNameOf (p : List String) : Option String := p.getLast?

/-- `MaildirEntry::copy` (src/maildir.rs:679-688): if the destination
mailbox's `cur` directory is the entry's parent, return `Ok(())` without
copying; otherwise `fs::copy` the file under the same name into the
destination `cur` (an I/O error when the source is missing). -/
def maildirEntryCopy (entryPath mdirCur : List String) (fs : FileFS) :
    Except MError FileFS :=
  if parentOf entryPath = some mdirCur then .ok fs
  else
    match fileNameOf entryPath with
    | none => .error .getMaildirEntryFileName
    | some name =>
      match fLookup fs entryPath with
      | none => .error .io
      | some data => .ok (fWrite fs (mdirCur ++ [name]) data)

/-- `Maildir::copy_to` (src/lib.rs:159-176), from the point where the entry
with the requested id has been found at `entryPath`: compute the literal
destination `target/cur/<file name>`, report `CopyEmailSamePathError` when
it equals the source path, otherwise `fs::copy`. -/
def maildirCopyTo (entryPath targetRoot : List String) (fs : FileFS) :
    Except MError FileFS :=
  match fileNameOf entryPath with
  | none => .error .getEmailFileName
  | some name =>
    if entryPath = targetRoot ++ ["cur", name] then .error .copyEmailSamePath
    else
      match fLookup fs entryPath with
      | none => .error .io
      | some data => .ok (fWrite fs (targetRoot ++ ["cur", name]) data)

/-- **C5, counterexample.**  The claim says a copy whose source and literal
destination coincide reports a self-operation error.  For
`MaildirEntry::copy` with destination `cur` equal to the entry's parent
(so the literal destination path equals the source path), the code returns
`Ok` and performs no copy — no error is reported (the file is also left
untouched). -/
theorem c5_counterexample :
    ["root", "cur"] ++ ["m"] = ["root", "cur", "m"] ∧
    maildirEntryCopy ["root", "cur", "m"] ["root", "cur"]
        [(["root", "cur", "m"], [1, 2, 3])] =
      .ok [(["root", "cur", "m"], [1, 2, 3])] :=
  ⟨by decide, by rfl⟩

/-- **C5, amended.**  The two historical variants behave differently: the
superseded `Maildir::copy_to` (lib.rs) reports the self-operation error
`CopyEmailSamePathError` whenever the source path equals the literal
destination path, while the current `MaildirEntry::copy` (maildir.rs)
silently returns `Ok` without copying when the entry's parent already is
the destination `cur` directory; in both variants the message file is
neither truncated nor modified. -/
theorem c5_amended (root p cur : List String) (n : String) (fs : FileFS)
    (h : parentOf p = some cur) :
    maildirCopyTo (root ++ ["cur", n]) root fs = .error .copyEmailSamePath ∧
    maildirEntryCopy p cur fs = .ok fs := by
  constructor
  · unfold maildirCopyTo fileNameOf
    rw [show root ++ ["cur", n] = (root ++ ["cur"]) ++ [n] by simp]
    rw [List.getLast?_concat]
    simp
  · unfold maildirEntryCopy
    rw [if_pos h]

/-- Witness for the amended C5 at a concrete mailbox `t`. -/
theorem c5_amended_witness :
    maildirCopyTo (["t"] ++ ["cur", "m"]) ["t"]
        [(["t", "cur", "m"], [7])] = .error .copyEmailSamePath ∧
    maildirEntryCopy ["t", "cur", "m"] ["t", "cur"]
        [(["t", "cur", "m"], [7])] = .ok [(["t", "cur", "m"], [7])] :=
  c5_amended ["t"] ["t", "cur", "m"] ["t", "cur"] "m"
    [(["t", "cur", "m"], [7])] (by decide)

/-! ## The atomic write protocol (C2)

Both write variants are modelled from the point where the temporary file
has been exclusively created inside `tmp` (the retry loop that precedes
this point creates no lasting state on failure).  Each Boolean argument
injects failure of the corresponding fallible call, in source order.  The
state records whether the temporary file and the destination file exist
when the function returns. -/

structure WriteState where
  tmpFile : Bool
  destFile : Bool
deriving DecidableEq, Repr

/-- `Maildir::write` (src/maildir.rs:237-289) after the exclusive creation
of the temp file.  There is no cleanup guard: every error return leaves
the temp file in `tmp`.  The trailing re-read of the destination directory
(`FindNewMaildirEntryError` when the freshly renamed entry is not found)
happens after the rename, so the temp file is gone there. -/
def maildirWriteAfterCreate
    (failWrite failSync failGen failRename failFind : Bool) :
    Except MError Unit × WriteState :=
  if failWrite then (.error .io, ⟨true, false⟩)
  else if failSync then (.error .io, ⟨true, false⟩)
  else if failGen then (.error .io, ⟨true, false⟩)
  else if failRename then (.error .io, ⟨true, false⟩)
  else if failFind then (.error .findNewMaildirEntry, ⟨false, true⟩)
  else (.ok (), ⟨false, true⟩)

/-- `Maildir::store` (src/lib.rs:291-353) after the exclusive creation of
the temp file.  The `RemoveOnDrop` guard is armed immediately after
creation, so every exit path — error or success — best-effort removes the
temp path (a no-op after the successful rename). -/
def storeAfterCreate (failWrite failSync failGen failRename : Bool) :
    Except MError Unit × WriteState :=
  if failWrite then (.error .io, ⟨false, false⟩)
  else if failSync then (.error .io, ⟨false, false⟩)
  else if failGen then (.error .io, ⟨false, false⟩)
  else if failRename then (.error .io, ⟨false, false⟩)
  else (.ok (), ⟨false, true⟩)

/-- **C2, counterexample.**  The claim says `Maildir::write` (reached via
`write_new`/`write_cur`) removes the temporary file before returning any
post-creation error.  When the very first step after creation
(`write_all`) fails, `Maildir::write` returns the error while the
temporary file is still present in `tmp`: `maildir.rs` registers no
cleanup guard. -/
theorem c2_counterexample :
    (maildirWriteAfterCreate true false false false false).1 = .error .io ∧
    (maildirWriteAfterCreate true false false false false).2.tmpFile = true :=
  ⟨rfl, rfl⟩

/-- **C2, amended.**  The cleanup guard belongs to the superseded
`Maildir::store` (lib.rs, reached via `store_new`/`store_cur`): there, for
every combination of step failures after the temp file is created, the
temp file is gone when the function returns, and a destination file exists
exactly when the call succeeded.  The current `Maildir::write`
(maildir.rs) has no such guard and leaves the temp file behind on error. -/
theorem c2_amended (failWrite failSync failGen failRename : Bool) :
    (storeAfterCreate failWrite failSync failGen failRename).2.tmpFile = false ∧
    ((storeAfterCreate failWrite failSync failGen failRename).2.destFile = true ↔
      (storeAfterCreate failWrite failSync failGen failRename).1 = .ok ()) := by
  cases failWrite <;> cases failSync <;> cases failGen <;> cases failRename <;>
    exact ⟨rfl, by simp [storeAfterCreate]⟩

/-! ## Handle path updates on flag mutation (C8) -/

/-- `std::path::Path::with_file_name` on the component-list model. -/
def withFileName (p : List String) (n : String) : List String :=
  p.dropLast ++ [n]

/-- `MaildirEntry::update_flags` (src/maildir.rs:644-653) with an injected
rename outcome: compute the next file name from the entry's id and the new
flag set, `fs::rename(prev, next)?`, and only then assign
`self.path = next_path`.  The returned pair is (result, handle path after
the call). -/
def mUpdateFlags (renameFails : Bool) (sep : Char) (path : List String)
    (flags : Finset Flag) : Except MError Unit × List String :=
  match path.getLast? with
  | none => (.error .getMaildirEntryFileName, path)
  | some name =>
    let next := withFileName path
      (String.mk (formatFileName sep (entryId sep name.toList) flags))
    if renameFails then (.error .io, path) else (.ok (), next)

/-- `MaildirEntry::insert_flags` (src/maildir.rs:624-642): union the new
flags into the decoded current set; when nothing was actually inserted no
rename is attempted; otherwise rename then assign the path. -/
def mInsertFlags (renameFails : Bool) (sep : Char) (path : List String)
    (newFlags : Finset Flag) : Except MError Unit × List String :=
  match path.getLast? with
  | none => (.error .getMaildirEntryFileName, path)
  | some name =>
    let cur := entryFlags sep name.toList
    let merged := cur ∪ newFlags
    if merged = cur then (.ok (), path)
    else
      let next := withFileName path
        (String.mk (formatFileName sep (entryId sep name.toList) merged))
      if renameFails then (.error .io, path) else (.ok (), next)

/-- `MaildirEntry::remove_flags` (src/maildir.rs:659-677): difference, with
the same no-op-when-unchanged and rename-then-assign structure. -/
def mRemoveFlags (renameFails : Bool) (sep : Char) (path : List String)
    (rmFlags : Finset Flag) : Except MError Unit × List String :=
  match path.getLast? with
  | none => (.error .getMaildirEntryFileName, path)
  | some name =>
    let cur := entryFlags sep name.toList
    let remaining := cur \ rmFlags
    if remaining = cur then (.ok (), path)
    else
      let next := withFileName path
        (String.mk (formatFileName sep (entryId sep name.toList) remaining))
      if renameFails then (.error .io, path) else (.ok (), next)

/-- `MailEntry::update` (src/entry.rs:75-91) with injected rename outcome
and destination-exists check: the new path is assigned to `self.path`
BEFORE `fs::rename` is attempted, so a rename failure leaves the handle on
the new path. -/
def mailEntryUpdate (renameFails newPathExists : Bool) (sep : Char)
    (id flagsStr : String) (path : List String) :
    Except MError Unit × List String :=
  let next := withFileName path (id ++ String.mk [sep] ++ "2," ++ flagsStr)
  if newPathExists then (.error .alreadyExists, path)
  else if renameFails then (.error .io, next)
  else (.ok (), next)

/-- **C8, counterexample.**  The claim says every flag-mutation operation
updates the handle's remembered path only after the rename succeeds.
`MailEntry::update` (entry.rs, backing `set_flag`/`unset_flag`/`set_id`)
assigns the new path first: when the rename fails the call returns the
error with the handle already moved off its prior path. -/
theorem c8_counterexample :
    (mailEntryUpdate true false ':' "id" "S" ["cur", "id"]).1 = .error .io ∧
    (mailEntryUpdate true false ':' "id" "S" ["cur", "id"]).2 ≠ ["cur", "id"] :=
  ⟨rfl, by decide⟩

/-- **C8, amended.**  The current `MaildirEntry` operations
(`insert_flags`, `update_flags`, `remove_flags` in maildir.rs) satisfy the
claim: whenever the rename fails, an error is returned and the handle
still refers to its prior path (and `update_flags` indeed returns an
error: either the file-name error or the rename error).  The superseded
`MailEntry::update` (entry.rs) violates it by assigning the new path
before the rename. -/
theorem c8_amended (sep : Char) (path : List String) (S T U : Finset Flag) :
    (mInsertFlags true sep path S).2 = path ∧
    (mUpdateFlags true sep path T).2 = path ∧
    (mRemoveFlags true sep path U).2 = path ∧
    ((mUpdateFlags true sep path T).1 = .error .getMaildirEntryFileName ∨
      (mUpdateFlags true sep path T).1 = .error .io) := by
  unfold mInsertFlags mUpdateFlags mRemoveFlags
  cases h : path.getLast? with
  | none => exact ⟨rfl, rfl, rfl, Or.inl rfl⟩
  | some name =>
    simp only [h]
    refine ⟨?_, rfl, ?_, Or.inr rfl⟩ <;> (split <;> rfl)

/-! ## The temporary-identifier generator (C9)

`generate_tmp_id` (src/maildir.rs:320-333 and identically src/lib.rs:375-387)
formats `"{secs}.#{counter:x}M{nanos}P{pid}"`.  Rust's `{}` on unsigned
integers prints decimal digits without sign or leading zeros, `{:x}` prints
lowercase hexadecimal; both are modelled below.  The process-wide counter is
an `AtomicUsize` bumped with wrapping `fetch_add`, so the `k`-th call of a
process whose counter started at `c0` observes `(c0 + k) % 2^64`. -/

/-- Rust `{:x}` formatting of an unsigned integer (lowercase hex, no
leading zeros). -/
def natToHex (n : Nat) : List Char :=
  if _h : n < 16 then [Nat.digitChar n]
  else natToHex (n / 16) ++ [Nat.digitChar (n % 16)]
termination_by n
decreasing_by exact Nat.div_lt_self (by omega) (by omega)

/-- Rust `{}` formatting of an unsigned integer (decimal). -/
def natToDecimal (n : Nat) : List Char :=
  if _h : n < 10 then [Nat.digitChar n]
  else natToDecimal (n / 10) ++ [Nat.digitChar (n % 10)]
termination_by n
decreasing_by exact Nat.div_lt_self (by omega) (by omega)

/-- `generate_tmp_id`: `format!("{secs}.#{counter:x}M{nanos}P{pid}")`. -/
def generateTmpId (secs nanos pid counter : Nat) : List Char :=
  natToDecimal secs ++ '.' :: '#' ::
    (natToHex counter ++ 'M' :: (natToDecimal nanos ++ 'P' :: natToDecimal pid))

/-- The counter is recoverable from the formatted identifier: it is the
run between the first `#` and the next `M` (decimal digits never contain
`#`, and lowercase hex digits never contain `M`). -/
def counterSegment (s : List Char) : List Char :=
  ((s.dropWhile fun c => decide (c ≠ '#')).drop 1).takeWhile
    fun c => decide (c ≠ 'M')

theorem natToDecimal_mem {c : Char} (n : Nat) (hc : c ∈ natToDecimal n) :
    ∃ d, d < 10 ∧ c = Nat.digitChar d := by
  induction n using Nat.strong_induction_on with
  | _ n ih =>
    rw [natToDecimal] at hc
    by_cases h : n < 10
    · rw [dif_pos h] at hc
      simp at hc
      exact ⟨n, h, hc⟩
    · rw [dif_neg h] at hc
      rcases List.mem_append.mp hc with h1 | h2
      · exact ih (n / 10) (Nat.div_lt_self (by omega) (by omega)) h1
      · simp at h2
        exact ⟨n % 10, Nat.mod_lt _ (by omega), h2⟩

theorem natToHex_mem {c : Char} (n : Nat) (hc : c ∈ natToHex n) :
    ∃ d, d < 16 ∧ c = Nat.digitChar d := by
  induction n using Nat.strong_induction_on with
  | _ n ih =>
    rw [natToHex] at hc
    by_cases h : n < 16
    · rw [dif_pos h] at hc
      simp at hc
      exact ⟨n, h, hc⟩
    · rw [dif_neg h] at hc
      rcases List.mem_append.mp hc with h1 | h2
      · exact ih (n / 16) (Nat.div_lt_self (by omega) (by omega)) h1
      · simp at h2
        exact ⟨n % 16, Nat.mod_lt _ (by omega), h2⟩

theorem dropWhile_append_stop (p : Char → Bool) (l : List Char) (c : Char)
    (r : List Char) (hl : ∀ x ∈ l, p x = true) (hc : p c = false) :
    (l ++ c :: r).dropWhile p = c :: r := by
  induction l with
  | nil => simp [List.dropWhile_cons, hc]
  | cons a as ih =>
    have ha : p a = true := hl a (List.mem_cons_self a as)
    simp only [List.cons_append, List.dropWhile_cons, ha, if_true]
    exact ih fun x hx => hl x (List.mem_cons_of_mem a hx)

theorem takeWhile_append_stop (p : Char → Bool) (l : List Char) (c : Char)
    (r : List Char) (hl : ∀ x ∈ l, p x = true) (hc : p c = false) :
    (l ++ c :: r).takeWhile p = l := by
  induction l with
  | nil => simp [List.takeWhile_cons, hc]
  | cons a as ih =>
    have ha : p a = true := hl a (List.mem_cons_self a as)
    simp only [List.cons_append, List.takeWhile_cons, ha, if_true]
    exact congrArg (a :: ·) (ih fun x hx => hl x (List.mem_cons_of_mem a hx))

theorem digitChar_lt_ten_ne_hash : ∀ d, d < 10 →
    decide (Nat.digitChar d ≠ '#') = true := by
  decide

theorem digitChar_lt_sixteen_ne_M : ∀ d, d < 16 →
    decide (Nat.digitChar d ≠ 'M') = true := by
  decide

theorem counterSegment_generateTmpId (secs nanos pid counter : Nat) :
    counterSegment (generateTmpId secs nanos pid counter) =
      natToHex counter := by
  unfold counterSegment generateTmpId
  rw [show natToDecimal secs ++ '.' :: '#' ::
        (natToHex counter ++ 'M' :: (natToDecimal nanos ++ 'P' :: natToDecimal pid)) =
      (natToDecimal secs ++ ['.']) ++ '#' ::
        (natToHex counter ++ 'M' :: (natToDecimal nanos ++ 'P' :: natToDecimal pid))
    from by simp]
  rw [dropWhile_append_stop _ _ _ _ ?_ (by decide)]
  · rw [List.drop_succ_cons, List.drop_zero]
    exact takeWhile_append_stop _ _ _ _
      (fun x hx => by
        rcases natToHex_mem counter hx with ⟨d, hd, rfl⟩
        exact digitChar_lt_sixteen_ne_M d hd) (by decide)
  · intro x hx
    rcases List.mem_append.mp hx with h1 | h2
    · rcases natToDecimal_mem secs h1 with ⟨d, hd, rfl⟩
      exact digitChar_lt_ten_ne_hash d hd
    · simp at h2
      subst h2
      decide

/-- Decoding of one lowercase hex digit (inverse of `Nat.digitChar` below
16). -/
def hexDigitVal : Char → Nat
  | '0' => 0 | '1' => 1 | '2' => 2 | '3' => 3
  | '4' => 4 | '5' => 5 | '6' => 6 | '7' => 7
  | '8' => 8 | '9' => 9 | 'a' => 10 | 'b' => 11
  | 'c' => 12 | 'd' => 13 | 'e' => 14 | 'f' => 15
  | _ => 0

def hexListVal (l : List Char) : Nat :=
  l.foldl (fun a c => 16 * a + hexDigitVal c) 0

theorem hexListVal_append_singleton (l : List Char) (c : Char) :
    hexListVal (l ++ [c]) = 16 * hexListVal l + hexDigitVal c := by
  unfold hexListVal
  rw [List.foldl_append]
  rfl

theorem hexDigitVal_digitChar : ∀ d, d < 16 → hexDigitVal (Nat.digitChar d) = d := by
  decide

theorem hexListVal_natToHex (n : Nat) : hexListVal (natToHex n) = n := by
  induction n using Nat.strong_induction_on with
  | _ n ih =>
    rw [natToHex]
    by_cases h : n < 16
    · rw [dif_pos h]
      show 16 * 0 + hexDigitVal (Nat.digitChar n) = n
      rw [hexDigitVal_digitChar n h]
      omega
    · rw [dif_neg h, hexListVal_append_singleton,
        ih (n / 16) (Nat.div_lt_self (by omega) (by omega)),
        hexDigitVal_digitChar (n % 16) (Nat.mod_lt _ (by omega))]
      omega

theorem natToHex_injective {a b : Nat} (h : natToHex a = natToHex b) :
    a = b := by
  have hv := congrArg hexListVal h
  rwa [hexListVal_natToHex, hexListVal_natToHex] at hv

/-- **C9.**  Within one process (fixed pid), distinct calls among fewer
than `2^64` consecutive calls to `generate_tmp_id` return distinct
strings, whatever the clock does: the `i`-th call embeds the wrapped
counter `(c0 + i) % 2^64` in lowercase hex between the `#` and the
following `M`, a position from which it is unambiguously recoverable
(`counterSegment`), and the wrapped counters of two distinct calls among
`2^64` consecutive ones differ. -/
theorem c9_tmp_id_distinct (c0 i j pid : Nat) (secs nanos : Nat → Nat)
    (hi : i < 2 ^ 64) (hj : j < 2 ^ 64) (hij : i ≠ j) :
    generateTmpId (secs i) (nanos i) pid ((c0 + i) % 2 ^ 64) ≠
      generateTmpId (secs j) (nanos j) pid ((c0 + j) % 2 ^ 64) := by
  intro heq
  have hseg := congrArg counterSegment heq
  rw [counterSegment_generateTmpId, counterSegment_generateTmpId] at hseg
  have hcnt : (c0 + i) % 2 ^ 64 = (c0 + j) % 2 ^ 64 := natToHex_injective hseg
  have hmod : i % 2 ^ 64 = j % 2 ^ 64 := Nat.ModEq.add_left_cancel' c0 hcnt
  rw [Nat.mod_eq_of_lt hi, Nat.mod_eq_of_lt hj] at hmod
  exact hij hmod

/-- Witness for C9: the first two calls of a process (counter values 0 and
1) yield distinct identifiers even at a frozen clock. -/
theorem c9_tmp_id_distinct_witness :
    generateTmpId 1 2 3 ((0 + 0) % 2 ^ 64) ≠
      generateTmpId 1 2 3 ((0 + 1) % 2 ^ 64) :=
  c9_tmp_id_distinct 0 0 1 3 (fun _ => 1) (fun _ => 2)
    (by norm_num) (by norm_num) (by decide)

end MaildirSpec
